import Mathlib

/-!
Verification of the column-type classification and visualization-recommendation
engine of the ai-chatbot-data-charts repository.

The Python sources `data_analyzer.py` and `visualizer.py` are shallowly
embedded: a dataframe column becomes a `Column` (name, dtype, list of cells),
machine floats become exact rationals, pandas library calls are translated to
their documented semantics (e.g. `Series.between` evaluates to `False` on a
missing value, `nunique`/`value_counts` ignore missing values), and the one
genuinely external call (`pd.to_datetime` succeeding or failing on a sample)
is abstracted as a boolean field of the column.
-/

namespace AIChart

/-- A single cell of a dataframe column: a numeric value, a text value, or a
missing marker (NaN/None). -/
inductive Cell where
  | num (q : ℚ)
  | str (s : String)
  | missing
deriving DecidableEq, Repr

/-- The pandas storage kinds (`df[col].dtype`) that `detect_column_types`
distinguishes.  `boolean` models dtype `bool`; `other` any further dtype. -/
inductive Dtype where
  | datetime64
  | float64
  | int64
  | object
  | category
  | boolean
  | other
deriving DecidableEq, Repr

/-- A dataframe column: its name, its storage kind, its cells (one per row of
the dataframe), and whether `pd.to_datetime` succeeds on its sample of up to
100 non-missing values (an external library call, abstracted as a field). -/
structure Column where
  name : String
  dtype : Dtype
  values : List Cell
  parsesAsDate : Bool
deriving DecidableEq, Repr

/-- `re.search` of a plain-text pattern: does `pat` occur as a contiguous
subsequence of `s`? -/
def containsSeq (pat : List Char) : List Char → Bool
  | [] => pat.isEmpty
  | c :: t => pat.isPrefixOf (c :: t) || containsSeq pat t

/-- `col.lower()` as a character list. -/
def lowerName (s : String) : List Char := s.data.map Char.toLower

/-- `lat_patterns = r'lat|latitude|^lat$|^latitude$'`: every alternative is
subsumed by the substring `lat`. -/
def latMatch (n : List Char) : Bool := containsSeq "lat".data n

/-- `lon_patterns = r'lon|longitude|^lng$|^long$'`: `lon` as a substring
subsumes `longitude` and `^long$`; `^lng$` is whole-string equality. -/
def lonMatch (n : List Char) : Bool := containsSeq "lon".data n || n == "lng".data

/-- `money_patterns`: any of the financial keywords as a substring, or a
leading currency symbol (`^[$€£¥]`). -/
def moneyMatch (n : List Char) : Bool :=
  (["price", "cost", "revenue", "sales", "income", "expense", "payment", "amount"].any
    fun kw => containsSeq kw.data n) ||
  (match n with
   | c :: _ => ['$', '€', '£', '¥'].contains c
   | [] => false)

/-- `date_patterns = r'date|time|year|month|day'`. -/
def dateMatch (n : List Char) : Bool :=
  ["date", "time", "year", "month", "day"].any fun kw => containsSeq kw.data n

/-- `id_patterns = r'id$|_id$|^id_|code$|number$'`. -/
def idMatch (n : List Char) : Bool :=
  "id".data.isSuffixOf n || "_id".data.isSuffixOf n || "id_".data.isPrefixOf n ||
  "code".data.isSuffixOf n || "number".data.isSuffixOf n

/-- Is the cell a missing marker? -/
def Cell.isMissing : Cell → Bool
  | .missing => true
  | _ => false

/-- `Series.between(lo, hi)` for one cell: a missing value (NaN) compares
`False`; a text cell cannot occur under the numeric-dtype guards. -/
def cellBetween (lo hi : ℚ) : Cell → Bool
  | .num q => decide (lo ≤ q) && decide (q ≤ hi)
  | _ => false

/-- `float(x).is_integer()` for one (non-missing) cell.  The non-`num` case is
unreachable under the numeric-dtype guard. -/
def Cell.isWhole : Cell → Bool
  | .num q => q.den == 1
  | _ => true

/-- `series.dropna()`. -/
def dropna (vs : List Cell) : List Cell := vs.filter fun c => !c.isMissing

/-- `series.nunique()`: the number of distinct non-missing values. -/
def nuniqueCells (vs : List Cell) : ℕ := ((dropna vs).dedup).length

/-- The closed category set of `detect_column_types`: the bucket a column name
is appended to. -/
inductive Tag where
  | datetime
  | geoLat
  | geoLon
  | percentage
  | monetary
  | discrete
  | continuous
  | binary
  | id
  | nominal
  | text
deriving DecidableEq, Repr

/-- The numeric-subtype block of `detect_column_types` (data_analyzer.py
lines 63-75), reached when the dtype is int64 or float64.  `n` is the
lowercased column name. -/
def classifyNumeric (n : List Char) (values : List Cell) : Tag :=
  if values.all (cellBetween 0 100) && containsSeq "%".data n then
    .percentage
  else if moneyMatch n then
    .monetary
  else if (dropna values).all Cell.isWhole then
    .discrete
  else
    .continuous

/-- The categorical-subtype block of `detect_column_types` (data_analyzer.py
lines 78-89), reached when the dtype is object or category.
`values.length` is `len(df)`, the row count. -/
def classifyObject (n : List Char) (values : List Cell) : Tag :=
  let u := nuniqueCells values
  if u = 2 then
    .binary
  else if (u : ℚ) ≤ (values.length : ℚ) * (5 / 100) then
    if idMatch n then .id else .nominal
  else
    .text

/-- The per-column body of the `for col in df.columns` loop of
`detect_column_types` (data_analyzer.py lines 38-89).  Each branch of the
Python code appends `col` to exactly one bucket and `continue`s, so the loop
body is a function from the column to an optional tag; `none` means the column
reached the end of the loop body without being appended anywhere.
`col.values.length` is `len(df)`, the row count. -/
def detect_column_type (col : Column) : Option Tag :=
  let n := lowerName col.name
  if ((col.dtype == .datetime64) || dateMatch n) && col.parsesAsDate then
    some .datetime
  else if latMatch n && ((col.dtype == .float64) || (col.dtype == .int64)) &&
      col.values.all (cellBetween (-90) 90) then
    some .geoLat
  else if lonMatch n && ((col.dtype == .float64) || (col.dtype == .int64)) &&
      col.values.all (cellBetween (-180) 180) then
    some .geoLon
  else if (col.dtype == .int64) || (col.dtype == .float64) then
    some (classifyNumeric n col.values)
  else if (col.dtype == .object) || (col.dtype == .category) then
    some (classifyObject n col.values)
  else
    none

/-! ### Stable descending sort

Python's `sorted(xs, key=k, reverse=True)` is a stable sort: elements with
equal keys keep their original relative order.  We model it by an insertion
sort that inserts each element after everything with a strictly larger key and
before everything with an equal or smaller key. -/

/-- Insert `x` into `ys` before the first element whose key is `≤ key x`. -/
def insertDesc {α : Type*} {β : Type*} [LinearOrder β] (key : α → β) (x : α) :
    List α → List α
  | [] => [x]
  | y :: ys => if key x < key y then y :: insertDesc key x ys else x :: y :: ys

/-- `sorted(l, key=key, reverse=True)`: stable descending insertion sort. -/
def sortDesc {α : Type*} {β : Type*} [LinearOrder β] (key : α → β) : List α → List α
  | [] => []
  | x :: xs => insertDesc key x (sortDesc key xs)

theorem insertDesc_perm {α : Type*} {β : Type*} [LinearOrder β] (key : α → β)
    (x : α) (ys : List α) : List.Perm (insertDesc key x ys) (x :: ys) := by
  induction ys with
  | nil => rfl
  | cons y ys ih =>
    rw [insertDesc]
    split
    · exact (ih.cons y).trans (List.Perm.swap x y ys)
    · rfl

theorem sortDesc_perm {α : Type*} {β : Type*} [LinearOrder β] (key : α → β)
    (l : List α) : List.Perm (sortDesc key l) l := by
  induction l with
  | nil => rfl
  | cons x xs ih =>
    exact (insertDesc_perm key x (sortDesc key xs)).trans (ih.cons x)

theorem insertDesc_pairwise {α : Type*} {β : Type*} [LinearOrder β] (key : α → β)
    (x : α) (ys : List α) (h : ys.Pairwise fun a b => key b ≤ key a) :
    (insertDesc key x ys).Pairwise fun a b => key b ≤ key a := by
  induction ys with
  | nil => simp [insertDesc]
  | cons y ys ih =>
    rw [List.pairwise_cons] at h
    rw [insertDesc]
    split
    · rename_i hk
      rw [List.pairwise_cons]
      refine ⟨fun b hb => ?_, ih h.2⟩
      rcases List.mem_cons.mp ((insertDesc_perm key x ys).mem_iff.mp hb) with rfl | hb
      · exact hk.le
      · exact h.1 b hb
    · rename_i hk
      push_neg at hk
      rw [List.pairwise_cons]
      refine ⟨fun b hb => ?_, List.pairwise_cons.mpr h⟩
      rcases List.mem_cons.mp hb with hb | hb
      · exact hb ▸ hk
      · exact (h.1 b hb).trans hk

theorem sortDesc_pairwise {α : Type*} {β : Type*} [LinearOrder β] (key : α → β)
    (l : List α) : (sortDesc key l).Pairwise fun a b => key b ≤ key a := by
  induction l with
  | nil => simp [sortDesc]
  | cons x xs ih => exact insertDesc_pairwise key x (sortDesc key xs) ih

theorem insertDesc_filter_key {α : Type*} {β : Type*} [LinearOrder β] (key : α → β)
    (k : β) (x : α) (ys : List α) :
    (insertDesc key x ys).filter (fun a => decide (key a = k)) =
      if key x = k then x :: ys.filter (fun a => decide (key a = k))
      else ys.filter (fun a => decide (key a = k)) := by
  induction ys with
  | nil => by_cases hx : key x = k <;> simp [insertDesc, hx]
  | cons y ys ih =>
    rw [insertDesc]
    split
    · rename_i hk
      by_cases hx : key x = k
      · have hy : ¬ (key y = k) := by
          intro hy
          exact absurd (hx ▸ hy ▸ hk) (lt_irrefl _)
        simp only [List.filter_cons, hy, decide_eq_true_eq, if_neg hy, ih, if_pos hx]
        simp [hy, hx]
      · simp only [List.filter_cons, decide_eq_true_eq, ih, if_neg hx]
    · by_cases hx : key x = k <;> simp [List.filter_cons, hx]

/-- Stability of `sortDesc`: for every key value, the elements carrying that
key appear in the sorted output in their original order. -/
theorem sortDesc_filter_key {α : Type*} {β : Type*} [LinearOrder β] (key : α → β)
    (k : β) (l : List α) :
    (sortDesc key l).filter (fun a => decide (key a = k)) =
      l.filter (fun a => decide (key a = k)) := by
  induction l with
  | nil => rfl
  | cons x xs ih =>
    rw [sortDesc, insertDesc_filter_key]
    by_cases hx : key x = k <;> simp [hx, ih]

/-- The head of a descending sort carries a maximal key. -/
theorem sortDesc_head_key_max {α : Type*} {β : Type*} [LinearOrder β] (key : α → β)
    (l : List α) (a h : α) (t : List α) (e : sortDesc key l = h :: t) (ha : a ∈ l) :
    key a ≤ key h := by
  have hmem : a ∈ sortDesc key l := (sortDesc_perm key l).symm.subset ha
  rw [e] at hmem
  rcases List.mem_cons.mp hmem with rfl | hmem
  · exact le_refl _
  · have hp := sortDesc_pairwise key l
    rw [e, List.pairwise_cons] at hp
    exact hp.1 a hmem

/-! ### visualizer.py -/

/-- The numeric content of a cell, if any. -/
def cellNum? : Cell → Option ℚ
  | .num q => some q
  | _ => none

/-- `series.value_counts()`: distinct non-missing values with their
occurrence counts, sorted by descending count. -/
def value_counts (vs : List Cell) : List (Cell × ℕ) :=
  sortDesc (fun p => p.2) (((dropna vs).dedup).map fun v => (v, (dropna vs).count v))

/-- `get_meaningful_categories` (visualizer.py lines 39-48).  The result is
`none` exactly when the Python code would raise an `IndexError` at
`value_counts.iloc[0]` (an empty frequency table reached under the guard);
`some b` is a normal return of `b`.  `len(series)` counts missing rows too. -/
def get_meaningful_categories (vs : List Cell) (max_categories : ℕ) : Option Bool :=
  let unique_count := nuniqueCells vs
  if 2 ≤ unique_count ∧ unique_count ≤ max_categories then
    match (value_counts vs).head? with
    | some p => some (decide ((p.2 : ℚ) / (vs.length : ℚ) < 95 / 100))
    | none => none
  else
    some false

/-- `series.sum() / len(...)`: the mean of the non-missing values. -/
def listMeanQ (xs : List ℚ) : ℚ := xs.sum / (xs.length : ℚ)

/-- The sample variance (`ddof=1`), i.e. the square of `series.std()`. -/
def sampleVarQ (xs : List ℚ) : ℚ :=
  (xs.map fun x => (x - listMeanQ xs) ^ 2).sum / ((xs.length : ℚ) - 1)

/-- `series.std() == 0`: with fewer than two non-missing values the standard
deviation is NaN and `NaN == 0` is `False`; otherwise `√v = 0 ↔ v = 0`. -/
def stdIsZero (xs : List ℚ) : Bool := decide (2 ≤ xs.length) && (sampleVarQ xs == 0)

/-- `series.is_monotonic_increasing`: `False` as soon as the series has a
missing value, otherwise non-strict ascending order. -/
def isMonotonicIncreasing (vs : List Cell) : Bool :=
  vs.all (fun c => !c.isMissing) && decide (List.Chain' (· ≤ ·) (vs.filterMap cellNum?))

/-- `series.diff().dropna().nunique()`: the number of distinct steps between
consecutive values. -/
def diffNunique (xs : List ℚ) : ℕ :=
  (((xs.zip xs.tail).map fun p => p.2 - p.1).dedup).length

/-- `is_meaningful_numeric` (visualizer.py lines 9-18). -/
def is_meaningful_numeric (vs : List Cell) : Bool :=
  if nuniqueCells vs < 2 then false
  else if stdIsZero (vs.filterMap cellNum?) then false
  else if isMonotonicIncreasing vs && decide (diffNunique (vs.filterMap cellNum?) ≤ 1) then
    false
  else true

/-- One entry of the `important_corrs` list built by
`get_important_correlations`: the column-name pair and the (signed)
correlation coefficient. -/
structure CorrEntry where
  pair : String × String
  correlation : ℚ
deriving DecidableEq, Repr

/-- The index pairs visited by `for i in range(n): for j in range(i+1, n)`,
in visit order. -/
def loopPairs (n : ℕ) : List (ℕ × ℕ) :=
  (List.range n).flatMap fun i => ((List.range' (i + 1) (n - (i + 1))).map fun j => (i, j))

/-- The `important_corrs` list of visualizer.py lines 26-35, before sorting:
pairs in loop order whose absolute correlation strictly exceeds the
threshold.  `corr i j` abstracts the Pearson matrix entry
`corr_matrix.iloc[i, j]` of `df[numeric_cols].corr()`. -/
def important_corrs (numeric_cols : List String) (corr : ℕ → ℕ → ℚ) (threshold : ℚ) :
    List CorrEntry :=
  (loopPairs numeric_cols.length).filterMap fun ij =>
    if threshold < |corr ij.1 ij.2| then
      some ⟨(numeric_cols.getD ij.1 "", numeric_cols.getD ij.2 ""), corr ij.1 ij.2⟩
    else none

/-- `get_important_correlations` (visualizer.py lines 20-37). -/
def get_important_correlations (numeric_cols : List String) (corr : ℕ → ℕ → ℚ)
    (threshold : ℚ) : List CorrEntry :=
  if numeric_cols.length < 2 then []
  else sortDesc (fun e => |e.correlation|) (important_corrs numeric_cols corr threshold)

/-- The resample frequency strings `'M'`, `'W'`, `'D'` of visualizer.py
lines 231-237. -/
inductive Freq where
  | M
  | W
  | D
deriving DecidableEq, Repr

/-- The granularity rule of `create_time_series_viz` (visualizer.py lines
231-237).  Dates are modelled as integer day numbers, so
`(df[date_col].max() - df[date_col].min()).days` is the difference. -/
def select_granularity (min_date max_date : ℤ) : Freq :=
  let days := max_date - min_date
  if days > 365 then .M
  else if days > 30 then .W
  else .D

/-- Ascending sort of the non-missing values (what pandas quantile sorts). -/
def sortAsc (xs : List ℚ) : List ℚ := sortDesc (fun q => -q) xs

/-- `Series.quantile(q)` with the pandas default linear interpolation:
with `n` sorted values the virtual index is `h = (n-1)·q` and the result
interpolates between the values at `⌊h⌋` and `⌊h⌋+1` (clamped).  Missing
values are dropped by the caller; the empty case (pandas NaN) is mapped
to `0` and is only reached behind guards. -/
def quantile (xs : List ℚ) (q : ℚ) : ℚ :=
  let s := sortAsc xs
  if s.length = 0 then 0
  else
    let h : ℚ := ((s.length : ℚ) - 1) * q
    let i : ℕ := (Int.floor h).toNat
    let lo := s.getD i 0
    let hi := s.getD (min (i + 1) (s.length - 1)) 0
    lo + (h - (i : ℚ)) * (hi - lo)

/-- `df[selected_col].quantile(q)`: missing values are dropped. -/
def quantileCells (vs : List Cell) (q : ℚ) : ℚ := quantile (vs.filterMap cellNum?) q

/-- The outlier computation of `create_monetary_viz` (visualizer.py lines
390-396): rows whose value is below `Q1 - 1.5·IQR` or above `Q3 + 1.5·IQR`,
in row order; a missing value satisfies neither comparison. -/
def detect_outliers (vs : List Cell) : List ℚ :=
  let Q1 := quantileCells vs (25 / 100)
  let Q3 := quantileCells vs (75 / 100)
  let IQR := Q3 - Q1
  vs.filterMap fun c =>
    match cellNum? c with
    | some v => if v < Q1 - 3 / 2 * IQR ∨ Q3 + 3 / 2 * IQR < v then some v else none
    | none => none

/-! ### The recommendation selector (`create_smart_visualizations`, lines 50-83) -/

/-- One bucket of the `column_types` dictionary: the columns (in dataframe
order) that `detect_column_types` appended to the given tag's list. -/
def bucket (cols : List Column) (t : Tag) : List Column :=
  cols.filter fun c => detect_column_type c == some t

/-- The `viz_options` list built by `create_smart_visualizations`
(visualizer.py lines 54-83), in append order.  `numeric_cols` concatenates
the continuous, discrete, monetary and percentage buckets (line 64);
`meaningful_numerics` filters it by `is_meaningful_numeric`;
`categorical_cols` filters the nominal and binary buckets by
`get_meaningful_categories` with its default `max_categories=10` (the
`.getD false` can never supply its default, since `get_meaningful_categories`
always returns `some`). -/
def create_smart_viz_options (cols : List Column) : List String :=
  let lat := bucket cols .geoLat
  let lon := bucket cols .geoLon
  let dt := bucket cols .datetime
  let numeric_cols :=
    bucket cols .continuous ++ bucket cols .discrete ++
      bucket cols .monetary ++ bucket cols .percentage
  let meaningful_numerics := numeric_cols.filter fun c => is_meaningful_numeric c.values
  let categorical_cols :=
    (bucket cols .nominal ++ bucket cols .binary).filter fun c =>
      (get_meaningful_categories c.values 10).getD false
  (if lat ≠ [] ∧ lon ≠ [] then ["Geographic Maps"] else []) ++
  (if dt ≠ [] then ["Time Series"] else []) ++
  (if meaningful_numerics ≠ [] then
    "Key Metrics" :: (if 2 ≤ meaningful_numerics.length then ["Correlations"] else [])
  else []) ++
  (if categorical_cols ≠ [] then ["Category Analysis"] else []) ++
  (if bucket cols .monetary ≠ [] then ["Financial Analysis"] else [])

/-- The meaningful numeric columns of a dataset (visualizer.py line 66). -/
def meaningful_numerics (cols : List Column) : List Column :=
  (bucket cols .continuous ++ bucket cols .discrete ++
    bucket cols .monetary ++ bucket cols .percentage).filter
    fun c => is_meaningful_numeric c.values

/-- The meaningful categorical columns of a dataset (visualizer.py lines
73-77). -/
def meaningful_categoricals (cols : List Column) : List Column :=
  (bucket cols .nominal ++ bucket cols .binary).filter fun c =>
    (get_meaningful_categories c.values 10).getD false

/-! ### The numeric summary of `analyze_data` (data_analyzer.py lines 120-128) -/

/-- Round to the nearest integer, ties to even (numpy/pandas `round`). -/
def roundHalfEven (q : ℚ) : ℤ :=
  let f := Int.floor q
  let r := q - (f : ℚ)
  if r < 1 / 2 then f
  else if 1 / 2 < r then f + 1
  else if f % 2 = 0 then f else f + 1

/-- `.round(2)`: round to two decimal places, ties to even. -/
def round2 (q : ℚ) : ℚ := (roundHalfEven (q * 100) : ℚ) / 100

/-- The value of one aggregated statistic.  `val` is an exact rational
(after `.round(2)`); `root q` stands for the square root of `q` — the
reported standard deviation is irrational in general, so it is carried
symbolically as its square, before display rounding; `nan` is pandas NaN
(statistic undefined for the column). -/
inductive StatVal where
  | val (q : ℚ)
  | root (q : ℚ)
  | nan
deriving DecidableEq, Repr

/-- The smallest element (`'min'`); the empty case is unreachable behind
the NaN guard. -/
def listMinQ : List ℚ → ℚ
  | [] => 0
  | x :: t => t.foldl min x

/-- The largest element (`'max'`). -/
def listMaxQ : List ℚ → ℚ
  | [] => 0
  | x :: t => t.foldl max x

/-- The aggregation spec of `analyze_data` lines 126-128: the statistic
names passed to `.agg`, in order. -/
def regular_agg_funcs : List String := ["count", "mean", "median", "std", "min", "max"]

/-- The per-column result of
`df[regular_numeric].agg(['count','mean','median','std','min','max']).round(2)`
(data_analyzer.py lines 126-128): each statistic name with its value.
`count` counts non-missing cells; `mean`/`median`/`min`/`max` are over the
non-missing cells and NaN on an all-missing column; `std` uses `ddof=1` and
is NaN below two values; pandas `median` equals the linear-interpolation
0.5-quantile. -/
def analyze_regular_summary (vs : List Cell) : List (String × StatVal) :=
  let xs := vs.filterMap cellNum?
  [("count", .val (xs.length : ℚ)),
   ("mean", if xs.length = 0 then .nan else .val (round2 (listMeanQ xs))),
   ("median", if xs.length = 0 then .nan else .val (round2 (quantile xs (1 / 2)))),
   ("std", if xs.length < 2 then .nan else .root (sampleVarQ xs)),
   ("min", if xs.length = 0 then .nan else .val (round2 (listMinQ xs))),
   ("max", if xs.length = 0 then .nan else .val (round2 (listMaxQ xs)))]

/-! ## Claims -/

/-- C7: for every pair of dates, the granularity selector returns monthly
when the span exceeds 365 days, weekly when the span exceeds 30 days but not
365, and daily otherwise; in particular a 400-day span yields monthly, a
45-day span yields weekly, and a 10-day span yields daily. -/
theorem C7_select_granularity (dmin dmax : ℤ) :
    (365 < dmax - dmin → select_granularity dmin dmax = .M) ∧
    (30 < dmax - dmin ∧ dmax - dmin ≤ 365 → select_granularity dmin dmax = .W) ∧
    (dmax - dmin ≤ 30 → select_granularity dmin dmax = .D) ∧
    select_granularity 0 400 = .M ∧
    select_granularity 0 45 = .W ∧
    select_granularity 0 10 = .D := by
  unfold select_granularity
  refine ⟨fun h => by rw [if_pos h], fun h => by rw [if_neg (by omega), if_pos h.1],
    fun h => by rw [if_neg (by omega), if_neg (by omega)], by norm_num, by norm_num,
    by norm_num⟩

/-- Witness for C7 at concrete spans. -/
theorem C7_select_granularity_witness :
    select_granularity 0 400 = Freq.M ∧ select_granularity 0 45 = Freq.W ∧
    select_granularity 0 10 = Freq.D :=
  ⟨(C7_select_granularity 0 400).1 (by norm_num),
   (C7_select_granularity 0 45).2.1 (by norm_num),
   (C7_select_granularity 0 10).2.2.1 (by norm_num)⟩

/-- C1 counterexample: a column of boolean storage kind (dtype `bool`) whose
name matches no keyword rule matches none of the dtype guards of
`detect_column_types` and is appended to no bucket — it is left untagged,
refuting totality over every storage kind. -/
theorem C1_counterexample :
    detect_column_type ⟨"flag", .boolean, [.str "True", .str "False"], false⟩ = none := by
  simp +decide [detect_column_type, lowerName, dateMatch, containsSeq]

/-- C1 (amended): each column receives at most one tag (each branch of the
loop body appends once and `continue`s), and it receives a tag exactly when
the datetime rule captures it or its storage kind is one of int64, float64,
object, category; a column of any other storage kind (e.g. boolean) not
captured by the datetime rule is left untagged. -/
theorem C1_classifier_totality (col : Column) :
    (detect_column_type col).isSome = true ↔
      ((col.dtype = .datetime64 ∨ dateMatch (lowerName col.name) = true) ∧
        col.parsesAsDate = true) ∨
      col.dtype = .float64 ∨ col.dtype = .int64 ∨
      col.dtype = .object ∨ col.dtype = .category := by
  unfold detect_column_type
  simp only [Bool.and_eq_true, Bool.or_eq_true, beq_iff_eq, List.all_eq_true]
  split_ifs <;> simp_all <;> tauto

/-- The numeric-subtype block only produces the four numeric tags. -/
theorem classifyNumeric_cases (n : List Char) (vs : List Cell) :
    classifyNumeric n vs = .percentage ∨ classifyNumeric n vs = .monetary ∨
    classifyNumeric n vs = .discrete ∨ classifyNumeric n vs = .continuous := by
  rw [classifyNumeric]
  split_ifs <;> simp

/-- The categorical-subtype block only produces the four categorical tags. -/
theorem classifyObject_cases (n : List Char) (vs : List Cell) :
    classifyObject n vs = .binary ∨ classifyObject n vs = .id ∨
    classifyObject n vs = .nominal ∨ classifyObject n vs = .text := by
  rw [classifyObject]
  split_ifs <;> simp

/-- On a column of numeric storage kind (cells numeric or missing),
`between(lo,hi).all()` holds iff there is no missing value and every numeric
value is inside the range: pandas `between` evaluates to `False` on NaN. -/
theorem all_cellBetween_iff (vs : List Cell)
    (hcells : ∀ c ∈ vs, c = Cell.missing ∨ ∃ q, c = Cell.num q) (lo hi : ℚ) :
    vs.all (cellBetween lo hi) = true ↔
      (∀ c ∈ vs, c ≠ Cell.missing) ∧ ∀ q : ℚ, Cell.num q ∈ vs → lo ≤ q ∧ q ≤ hi := by
  rw [List.all_eq_true]
  constructor
  · intro h
    refine ⟨fun c hc hcm => ?_, fun q hq => ?_⟩
    · have := h c hc
      rw [hcm] at this
      simp [cellBetween] at this
    · have := h _ hq
      simpa [cellBetween] using this
  · rintro ⟨h1, h2⟩ c hc
    rcases hcells c hc with rfl | ⟨q, rfl⟩
    · exact absurd rfl (h1 _ hc)
    · simpa [cellBetween] using h2 q hc

/-- C2 counterexample: a float column whose values are all missing is
classified numeric-discrete (the `is_integer` test over the empty `dropna`
passes vacuously), not free-text as the claim states. -/
theorem C2_counterexample :
    detect_column_type ⟨"reading", .float64, [.missing, .missing], false⟩ =
      some Tag.discrete ∧
    some Tag.discrete ≠ some Tag.text := by
  constructor
  · simp +decide [detect_column_type, classifyNumeric, lowerName, dateMatch, containsSeq,
      latMatch, lonMatch, moneyMatch, cellBetween, dropna, Cell.isMissing, Cell.isWhole]
  · decide

/-- C2 (amended): a column whose values are all missing is never classified
free-text — but not because it falls through every rule: over a nonempty
dataframe the range tests fail on NaN while the vacuous `is_integer` and
5%-cardinality tests pass, so a float column (not captured by the
datetime/percentage/monetary name rules) is classified numeric-discrete and
an object column is classified categorical-id or categorical-nominal. -/
theorem C2_all_missing (col : Column) (hne : col.values ≠ [])
    (hmiss : ∀ c ∈ col.values, c = Cell.missing) :
    detect_column_type col ≠ some Tag.text ∧
    (col.parsesAsDate = false →
      (col.dtype = .float64 → moneyMatch (lowerName col.name) = false →
        detect_column_type col = some Tag.discrete) ∧
      (col.dtype = .object → idMatch (lowerName col.name) = false →
        detect_column_type col = some Tag.nominal)) := by
  have hdrop : dropna col.values = [] := by
    rw [dropna, List.filter_eq_nil_iff]
    intro c hc
    rw [hmiss c hc]
    simp [Cell.isMissing]
  have hu : nuniqueCells col.values = 0 := by rw [nuniqueCells, hdrop]; rfl
  have hballs : ∀ lo hi : ℚ, col.values.all (cellBetween lo hi) = false := by
    intro lo hi
    cases hcv : col.values with
    | nil => exact absurd hcv hne
    | cons c cs =>
      have hc := hmiss c (by rw [hcv]; exact List.mem_cons_self c cs)
      rw [hc]
      simp [List.all_cons, cellBetween]
  have hnum : ∀ n, classifyNumeric n col.values =
      (if moneyMatch n = true then Tag.monetary else Tag.discrete) := by
    intro n
    rw [classifyNumeric, hballs 0 100]
    simp [hdrop]
  have hobj : ∀ n, classifyObject n col.values =
      (if idMatch n = true then Tag.id else Tag.nominal) := by
    intro n
    have hpos : (0 : ℚ) ≤ (col.values.length : ℚ) * (5 / 100) := by positivity
    rw [classifyObject]
    simp [hu, hpos]
  refine ⟨?_, fun hpd => ⟨fun hdt hmm => ?_, fun hdt hid => ?_⟩⟩
  · unfold detect_column_type
    split_ifs <;>
      simp_all [hnum, hobj] <;>
      split_ifs <;>
      simp_all
  · unfold detect_column_type
    simp [hpd, hdt, hballs, hnum, hmm]
  · unfold detect_column_type
    simp [hpd, hdt, hballs, hobj, hid]

/-- Witness for C2 at a concrete all-missing object column: it is classified
categorical-nominal. -/
theorem C2_all_missing_witness :
    detect_column_type ⟨"obs", .object, [.missing, .missing, .missing], false⟩ =
      some Tag.nominal :=
  ((C2_all_missing ⟨"obs", .object, [.missing, .missing, .missing], false⟩
      (by decide) (by decide)).2 rfl).2 rfl (by decide)

/-- C3 counterexample: the column named `lat`, of float storage kind, whose
non-missing values all lie in [-90, 90] but which contains one missing value.
The claim says missing values are ignored by the range test and the column is
tagged geo-latitude; in the code `between(-90,90).all()` is `False` on the
NaN row, so the column falls through to the numeric rules and is tagged
numeric-discrete. -/
theorem C3_counterexample :
    detect_column_type ⟨"lat", .float64, [.num 10, .missing], false⟩ = some Tag.discrete ∧
    detect_column_type ⟨"lat", .float64, [.num 10, .missing], false⟩ ≠ some Tag.geoLat ∧
    latMatch (lowerName "lat") = true ∧
    (∀ q : ℚ, Cell.num q ∈ [Cell.num 10, Cell.missing] → -90 ≤ q ∧ q ≤ 90) := by
  have hq : ∀ q : ℚ, Cell.num q ∈ [Cell.num 10, Cell.missing] → -90 ≤ q ∧ q ≤ 90 := by
    intro q hq
    simp only [List.mem_cons, List.not_mem_nil, or_false] at hq
    rcases hq with hq | hq
    · rw [Cell.num.injEq] at hq
      subst hq
      norm_num
    · exact Cell.noConfusion hq
  refine ⟨?_, ?_, by decide, hq⟩ <;>
    simp +decide [detect_column_type, classifyNumeric, lowerName, dateMatch, containsSeq,
      latMatch, lonMatch, moneyMatch, cellBetween, dropna, Cell.isMissing, Cell.isWhole]

/-- C3 (amended): provided the earlier datetime rule does not capture the
column, it is tagged geo-latitude exactly when its name matches a latitude
keyword, its storage kind is numeric, and every row passes the range test —
a missing value fails `between(-90,90)`, so the column must contain no
missing value and all its values must lie in [-90, 90]; consequently every
column tagged geo-latitude has all its (non-missing) values inside
[-90, 90]. -/
theorem C3_geo_latitude (col : Column)
    (hcells : ∀ c ∈ col.values, c = Cell.missing ∨ ∃ q, c = Cell.num q)
    (hdt : ¬((col.dtype = .datetime64 ∨ dateMatch (lowerName col.name) = true) ∧
      col.parsesAsDate = true)) :
    (detect_column_type col = some Tag.geoLat ↔
      latMatch (lowerName col.name) = true ∧
      (col.dtype = .float64 ∨ col.dtype = .int64) ∧
      (∀ c ∈ col.values, c ≠ Cell.missing) ∧
      (∀ q : ℚ, Cell.num q ∈ col.values → -90 ≤ q ∧ q ≤ 90)) ∧
    (detect_column_type col = some Tag.geoLat →
      ∀ q : ℚ, Cell.num q ∈ col.values → -90 ≤ q ∧ q ≤ 90) := by
  have hmain : detect_column_type col = some Tag.geoLat ↔
      latMatch (lowerName col.name) = true ∧
      (col.dtype = .float64 ∨ col.dtype = .int64) ∧
      (∀ c ∈ col.values, c ≠ Cell.missing) ∧
      (∀ q : ℚ, Cell.num q ∈ col.values → -90 ≤ q ∧ q ≤ 90) := by
    have h1 : (((col.dtype == Dtype.datetime64) || dateMatch (lowerName col.name)) &&
        col.parsesAsDate) = false := by
      rw [Bool.eq_false_iff]
      intro hcontra
      apply hdt
      simpa [Bool.and_eq_true, Bool.or_eq_true, beq_iff_eq] using hcontra
    rw [← all_cellBetween_iff col.values hcells (-90) 90]
    simp only [detect_column_type]
    rw [h1]
    simp only [Bool.false_eq_true, if_false]
    by_cases h2 : (latMatch (lowerName col.name) &&
        ((col.dtype == Dtype.float64) || (col.dtype == Dtype.int64)) &&
        col.values.all (cellBetween (-90) 90)) = true
    · rw [if_pos h2]
      simp only [Bool.and_eq_true, Bool.or_eq_true, beq_iff_eq] at h2
      simp only [true_iff, eq_self_iff_true]
      exact ⟨h2.1.1, h2.1.2, h2.2⟩
    · rw [if_neg h2]
      simp only [Bool.and_eq_true, Bool.or_eq_true, beq_iff_eq] at h2
      constructor
      · intro hfalse
        exfalso
        split_ifs at hfalse <;>
          rcases classifyNumeric_cases (lowerName col.name) col.values with h | h | h | h <;>
          rcases classifyObject_cases (lowerName col.name) col.values with h' | h' | h' | h' <;>
          simp [h, h'] at hfalse
      · intro hrhs
        exact absurd ⟨⟨hrhs.1, hrhs.2.1⟩, hrhs.2.2⟩ h2
  exact ⟨hmain, fun h => (hmain.mp h).2.2.2⟩

/-- Witness for C3 at a concrete clean latitude column. -/
theorem C3_geo_latitude_witness :
    detect_column_type ⟨"lat", .float64, [.num 10, .num (-45)], false⟩ = some Tag.geoLat :=
  ((C3_geo_latitude ⟨"lat", .float64, [.num 10, .num (-45)], false⟩
      (by
        intro c hc
        simp only [List.mem_cons, List.not_mem_nil, or_false] at hc
        rcases hc with rfl | rfl
        · exact Or.inr ⟨10, rfl⟩
        · exact Or.inr ⟨-45, rfl⟩)
      (by simp +decide [lowerName, dateMatch, containsSeq])).1).mpr
    ⟨by decide, Or.inl rfl, by decide, by
      intro q hq
      simp only [List.mem_cons, List.not_mem_nil, or_false] at hq
      rcases hq with hq | hq
      · rw [Cell.num.injEq] at hq
        subst hq
        norm_num
      · rw [Cell.num.injEq] at hq
        subst hq
        norm_num⟩

/-- Every entry of `value_counts` is a distinct non-missing value paired with
its occurrence count. -/
theorem value_counts_mem (vs : List Cell) (p : Cell × ℕ) (hp : p ∈ value_counts vs) :
    p.1 ∈ dropna vs ∧ p.2 = (dropna vs).count p.1 := by
  have hmem := (sortDesc_perm (fun p : Cell × ℕ => p.2) _).subset hp
  rw [List.mem_map] at hmem
  obtain ⟨v, hv, rfl⟩ := hmem
  exact ⟨List.mem_dedup.mp hv, rfl⟩

/-- The length of `value_counts` is the number of distinct non-missing
values. -/
theorem value_counts_length (vs : List Cell) :
    (value_counts vs).length = nuniqueCells vs := by
  rw [value_counts, (sortDesc_perm _ _).length_eq, List.length_map, nuniqueCells]

/-- With at least two distinct values the frequency table is nonempty. -/
theorem value_counts_ne_nil (vs : List Cell) (h : 2 ≤ nuniqueCells vs) :
    ∃ p t, value_counts vs = p :: t := by
  cases hvc : value_counts vs with
  | nil =>
    have hlen := value_counts_length vs
    rw [hvc] at hlen
    simp at hlen
    omega
  | cons p t => exact ⟨p, t, rfl⟩

/-- The head of `value_counts` dominates every occurrence count
(`value_counts` is sorted by descending count). -/
theorem value_counts_head_max (vs : List Cell) (p : Cell × ℕ) (t : List (Cell × ℕ))
    (he : value_counts vs = p :: t) (c : Cell) (hc : c ∈ dropna vs) :
    (dropna vs).count c ≤ p.2 := by
  have hmem : (c, (dropna vs).count c) ∈
      ((dropna vs).dedup).map (fun v => (v, (dropna vs).count v)) :=
    List.mem_map.mpr ⟨c, List.mem_dedup.mpr hc, rfl⟩
  rw [value_counts] at he
  exact sortDesc_head_key_max (fun p : Cell × ℕ => p.2) _ _ p t he hmem

/-- C5 counterexample: a series of 21 rows — nineteen `"a"`, one `"b"`, one
missing.  The most frequent value accounts for 19/20 = 95% of the non-missing
rows, so the claim (`< 95%` of non-missing rows) says the test fails; the
code divides by `len(series)` = 21 (missing included), 19/21 < 95%, and
returns `True`. -/
theorem C5_counterexample :
    get_meaningful_categories
        (List.replicate 19 (Cell.str "a") ++ [Cell.str "b", Cell.missing]) 10 =
      some true ∧
    (dropna (List.replicate 19 (Cell.str "a") ++ [Cell.str "b", Cell.missing])).count
        (Cell.str "a") = 19 ∧
    (dropna (List.replicate 19 (Cell.str "a") ++ [Cell.str "b", Cell.missing])).length
        = 20 ∧
    ¬ ((19 : ℚ) / 20 < 95 / 100) := by
  refine ⟨?_, by decide, by decide, by norm_num⟩
  rw [get_meaningful_categories, if_pos (by decide)]
  have hvc : value_counts
      (List.replicate 19 (Cell.str "a") ++ [Cell.str "b", Cell.missing]) =
      [(Cell.str "a", 19), (Cell.str "b", 1)] := by decide
  rw [hvc]
  simp only [List.head?_cons, Option.some.injEq, decide_eq_true_eq]
  norm_num [List.length_append, List.length_replicate]

/-- C5 (amended): `get_meaningful_categories(column, max_categories)` returns
`True` iff the distinct-value count is in `[2, max_categories]` and the most
frequent value accounts for strictly less than 95% of **all** rows of the
series — the code divides the top frequency by `len(series)`, which counts
missing rows, not by the number of non-missing rows. -/
theorem C5_meaningful_categorical (vs : List Cell) (maxc : ℕ) :
    get_meaningful_categories vs maxc = some true ↔
      2 ≤ nuniqueCells vs ∧ nuniqueCells vs ≤ maxc ∧
        ∀ c ∈ dropna vs, ((dropna vs).count c : ℚ) < 95 / 100 * (vs.length : ℚ) := by
  rw [get_meaningful_categories]
  by_cases hg : 2 ≤ nuniqueCells vs ∧ nuniqueCells vs ≤ maxc
  · rw [if_pos hg]
    obtain ⟨p, t, he⟩ := value_counts_ne_nil vs hg.1
    rw [he]
    have hlenpos : 0 < vs.length := by
      have h1 : (dropna vs).dedup.length ≤ (dropna vs).length :=
        (List.dedup_sublist _).length_le
      have h2 : (dropna vs).length ≤ vs.length := by
        rw [dropna]
        exact (List.filter_sublist _).length_le
      have h3 := hg.1
      rw [nuniqueCells] at h3
      omega
    have hlenposq : (0 : ℚ) < (vs.length : ℚ) := by exact_mod_cast hlenpos
    simp only [List.head?_cons, Option.some.injEq, decide_eq_true_eq]
    constructor
    · intro hsome
      refine ⟨hg.1, hg.2, fun c hc => ?_⟩
      have hmax := value_counts_head_max vs p t he c hc
      have hdiv : (p.2 : ℚ) < 95 / 100 * (vs.length : ℚ) :=
        (div_lt_iff₀ hlenposq).mp hsome
      calc ((dropna vs).count c : ℚ) ≤ (p.2 : ℚ) := by exact_mod_cast hmax
        _ < 95 / 100 * (vs.length : ℚ) := hdiv
    · rintro ⟨-, -, hall⟩
      have hp := value_counts_mem vs p (he ▸ List.mem_cons_self p t)
      have hc := hall p.1 hp.1
      rw [← hp.2] at hc
      exact (div_lt_iff₀ hlenposq).mpr hc
  · rw [if_neg hg]
    simp only [Option.some.injEq, Bool.false_eq_true, false_iff]
    rintro ⟨h1, h2, -⟩
    exact hg ⟨h1, h2⟩

/-- C10: `get_meaningful_categories` is total — the `value_counts.iloc[0]`
access is guarded by `2 ≤ nunique`, under which the frequency table is
nonempty, so the function never raises; and on any series with fewer than two
distinct non-missing values (empty and all-missing series included) it
returns `False`. -/
theorem C10_gmc_total (vs : List Cell) (maxc : ℕ) :
    (get_meaningful_categories vs maxc).isSome = true ∧
    (nuniqueCells vs < 2 → get_meaningful_categories vs maxc = some false) := by
  constructor
  · rw [get_meaningful_categories]
    by_cases hg : 2 ≤ nuniqueCells vs ∧ nuniqueCells vs ≤ maxc
    · rw [if_pos hg]
      obtain ⟨p, t, he⟩ := value_counts_ne_nil vs hg.1
      rw [he]
      rfl
    · rw [if_neg hg]
      rfl
  · intro hu
    rw [get_meaningful_categories, if_neg (by omega)]

/-- Witness for C10 on the empty series and an all-missing series. -/
theorem C10_gmc_total_witness :
    get_meaningful_categories [] 10 = some false ∧
    get_meaningful_categories [Cell.missing, Cell.missing] 10 = some false :=
  ⟨(C10_gmc_total [] 10).2 (by decide),
   (C10_gmc_total [Cell.missing, Cell.missing] 10).2 (by decide)⟩

/-- The nested loops visit exactly the index pairs `i < j < n`. -/
theorem loopPairs_mem (n i j : ℕ) : (i, j) ∈ loopPairs n ↔ i < j ∧ j < n := by
  rw [loopPairs]
  simp only [List.mem_flatMap, List.mem_map, List.mem_range, List.mem_range'_1,
    Prod.mk.injEq]
  constructor
  · rintro ⟨a, ha, b, ⟨hb1, hb2⟩, rfl, rfl⟩
    omega
  · rintro ⟨hij, hjn⟩
    exact ⟨i, by omega, ⟨j, ⟨by omega, by omega⟩, rfl, rfl⟩⟩

/-- With fewer than two columns the nested loops run zero iterations. -/
theorem important_corrs_nil (numeric_cols : List String) (corr : ℕ → ℕ → ℚ)
    (threshold : ℚ) (hlen : numeric_cols.length < 2) :
    important_corrs numeric_cols corr threshold = [] := by
  rw [important_corrs, List.filterMap_eq_nil_iff]
  intro ij hij
  obtain ⟨i, j⟩ := ij
  rw [loopPairs_mem] at hij
  omega

/-- Membership in the pre-sort `important_corrs` list. -/
theorem important_corrs_mem (numeric_cols : List String) (corr : ℕ → ℕ → ℚ)
    (threshold : ℚ) (e : CorrEntry) :
    e ∈ important_corrs numeric_cols corr threshold ↔
      ∃ i j : ℕ, i < j ∧ j < numeric_cols.length ∧ threshold < |corr i j| ∧
        e = ⟨(numeric_cols.getD i "", numeric_cols.getD j ""), corr i j⟩ := by
  rw [important_corrs, List.mem_filterMap]
  constructor
  · rintro ⟨⟨i, j⟩, hij, hf⟩
    rw [loopPairs_mem] at hij
    by_cases hth : threshold < |corr i j|
    · rw [if_pos hth, Option.some.injEq] at hf
      exact ⟨i, j, hij.1, hij.2, hth, hf.symm⟩
    · rw [if_neg hth] at hf
      exact absurd hf (by simp)
  · rintro ⟨i, j, hij, hjn, hth, rfl⟩
    exact ⟨(i, j), (loopPairs_mem _ _ _).mpr ⟨hij, hjn⟩, by rw [if_pos hth]⟩

/-- C6: `get_important_correlations` returns exactly the pairs `(i, j)`,
`i < j`, of supplied columns whose absolute correlation strictly exceeds the
threshold, sorted by descending absolute correlation, with tied pairs kept in
the order the nested loops first encounter them (Python's `sorted` is
stable); with fewer than 2 columns it returns `[]` instead of failing.
`corr` abstracts the Pearson matrix `df[numeric_cols].corr()`. -/
theorem C6_rank_correlations (numeric_cols : List String) (corr : ℕ → ℕ → ℚ)
    (threshold : ℚ) :
    (numeric_cols.length < 2 →
      get_important_correlations numeric_cols corr threshold = []) ∧
    (∀ e : CorrEntry, e ∈ get_important_correlations numeric_cols corr threshold ↔
      ∃ i j : ℕ, i < j ∧ j < numeric_cols.length ∧ threshold < |corr i j| ∧
        e = ⟨(numeric_cols.getD i "", numeric_cols.getD j ""), corr i j⟩) ∧
    List.Chain' (fun a b => |b.correlation| ≤ |a.correlation|)
      (get_important_correlations numeric_cols corr threshold) ∧
    (∀ k : ℚ, (get_important_correlations numeric_cols corr threshold).filter
        (fun e => decide (|e.correlation| = k)) =
      (important_corrs numeric_cols corr threshold).filter
        (fun e => decide (|e.correlation| = k))) := by
  by_cases hlen : numeric_cols.length < 2
  · refine ⟨fun _ => by rw [get_important_correlations, if_pos hlen], ?_, ?_, ?_⟩
    · intro e
      rw [get_important_correlations, if_pos hlen]
      simp only [List.not_mem_nil, false_iff]
      rintro ⟨i, j, hij, hjn, -, -⟩
      omega
    · rw [get_important_correlations, if_pos hlen]
      exact List.chain'_nil
    · intro k
      rw [get_important_correlations, if_pos hlen,
        important_corrs_nil numeric_cols corr threshold hlen]
  · have hgic : get_important_correlations numeric_cols corr threshold =
        sortDesc (fun e => |e.correlation|) (important_corrs numeric_cols corr threshold) := by
      rw [get_important_correlations, if_neg hlen]
    refine ⟨fun h => absurd h hlen, ?_, ?_, ?_⟩
    · intro e
      rw [hgic, (sortDesc_perm _ _).mem_iff]
      exact important_corrs_mem numeric_cols corr threshold e
    · rw [hgic]
      exact (sortDesc_pairwise _ _).chain'
    · intro k
      rw [hgic]
      exact sortDesc_filter_key (fun e : CorrEntry => |e.correlation|) k _

/-- Witness for C6: a single-column input yields the empty sequence. -/
theorem C6_rank_correlations_witness :
    get_important_correlations ["a"] (fun _ _ => 1) (3 / 10) = [] :=
  (C6_rank_correlations ["a"] (fun _ _ => 1) (3 / 10)).1 (by norm_num)

/-- C8: outlier detection returns exactly the (non-missing) values below
`Q1 - 1.5·IQR` or above `Q3 + 1.5·IQR` where `Q1`/`Q3` are the 25th/75th
percentiles (pandas linear interpolation) and `IQR = Q3 - Q1`; it returns the
empty sequence when no value satisfies the rule; and on `[10,20,30,1000]` it
returns `[1000]`. -/
theorem C8_detect_outliers (vs : List Cell) :
    (∀ v : ℚ, v ∈ detect_outliers vs ↔
      Cell.num v ∈ vs ∧
        (v < quantileCells vs (25 / 100) -
            3 / 2 * (quantileCells vs (75 / 100) - quantileCells vs (25 / 100)) ∨
          quantileCells vs (75 / 100) +
            3 / 2 * (quantileCells vs (75 / 100) - quantileCells vs (25 / 100)) < v)) ∧
    ((∀ v : ℚ, Cell.num v ∈ vs →
        ¬(v < quantileCells vs (25 / 100) -
            3 / 2 * (quantileCells vs (75 / 100) - quantileCells vs (25 / 100)) ∨
          quantileCells vs (75 / 100) +
            3 / 2 * (quantileCells vs (75 / 100) - quantileCells vs (25 / 100)) < v)) →
      detect_outliers vs = []) ∧
    detect_outliers [Cell.num 10, Cell.num 20, Cell.num 30, Cell.num 1000] = [1000] := by
  have hmem : ∀ v : ℚ, v ∈ detect_outliers vs ↔
      Cell.num v ∈ vs ∧
        (v < quantileCells vs (25 / 100) -
            3 / 2 * (quantileCells vs (75 / 100) - quantileCells vs (25 / 100)) ∨
          quantileCells vs (75 / 100) +
            3 / 2 * (quantileCells vs (75 / 100) - quantileCells vs (25 / 100)) < v) := by
    intro v
    simp only [detect_outliers]
    rw [List.mem_filterMap]
    constructor
    · rintro ⟨c, hc, hf⟩
      cases c with
      | num w =>
        simp only [cellNum?] at hf
        split_ifs at hf with hcond
        rw [Option.some.injEq] at hf
        subst hf
        exact ⟨hc, hcond⟩
      | str s => simp [cellNum?] at hf
      | missing => simp [cellNum?] at hf
    · rintro ⟨hc, hcond⟩
      refine ⟨Cell.num v, hc, ?_⟩
      simp only [cellNum?]
      rw [if_pos hcond]
  refine ⟨hmem, fun hnone => ?_, ?_⟩
  · rw [List.eq_nil_iff_forall_not_mem]
    intro v hv
    rw [hmem v] at hv
    exact hnone v hv.1 hv.2
  · have h1 : quantileCells [Cell.num 10, Cell.num 20, Cell.num 30, Cell.num 1000]
        (25 / 100) = 35 / 2 := by
      norm_num [quantileCells, cellNum?, List.filterMap, quantile, sortAsc, sortDesc,
        insertDesc, List.getD, Int.toNat_ofNat]
    have h3 : quantileCells [Cell.num 10, Cell.num 20, Cell.num 30, Cell.num 1000]
        (75 / 100) = 545 / 2 := by
      norm_num [quantileCells, cellNum?, List.filterMap, quantile, sortAsc, sortDesc,
        insertDesc, List.getD, Int.toNat_ofNat]
      norm_num [show Int.toNat 2 = 2 from rfl, min_def]
    simp only [detect_outliers]
    rw [h1, h3]
    norm_num [cellNum?, List.filterMap]

/-- Witness for C8: on an all-missing column there is no value to test, so
the outlier list is empty (the designed no-error failure mode). -/
theorem C8_detect_outliers_witness :
    detect_outliers [Cell.missing, Cell.missing] = [] :=
  (C8_detect_outliers [Cell.missing, Cell.missing]).2.1
    (by intro v hv; simp at hv)

/-- `foldl min` over a nonempty list yields an element that bounds the list
from below. -/
theorem foldl_min_spec (x : ℚ) (t : List ℚ) :
    t.foldl min x ∈ x :: t ∧ ∀ y ∈ x :: t, t.foldl min x ≤ y := by
  induction t generalizing x with
  | nil => simp
  | cons a t ih =>
    obtain ⟨hmem, hle⟩ := ih (min x a)
    rw [List.foldl_cons]
    constructor
    · rcases List.mem_cons.mp hmem with hm | hm
      · rcases min_choice x a with hc | hc
        · exact List.mem_cons.mpr (Or.inl (hm.trans hc))
        · exact List.mem_cons.mpr (Or.inr (List.mem_cons.mpr (Or.inl (hm.trans hc))))
      · exact List.mem_cons.mpr (Or.inr (List.mem_cons.mpr (Or.inr hm)))
    · intro y hy
      rcases List.mem_cons.mp hy with rfl | hy'
      · exact (hle _ (List.mem_cons_self _ _)).trans (min_le_left _ _)
      rcases List.mem_cons.mp hy' with rfl | hy''
      · exact (hle _ (List.mem_cons_self _ _)).trans (min_le_right _ _)
      · exact hle y (List.mem_cons.mpr (Or.inr hy''))

/-- `foldl max` over a nonempty list yields an element that bounds the list
from above. -/
theorem foldl_max_spec (x : ℚ) (t : List ℚ) :
    t.foldl max x ∈ x :: t ∧ ∀ y ∈ x :: t, y ≤ t.foldl max x := by
  induction t generalizing x with
  | nil => simp
  | cons a t ih =>
    obtain ⟨hmem, hle⟩ := ih (max x a)
    rw [List.foldl_cons]
    constructor
    · rcases List.mem_cons.mp hmem with hm | hm
      · rcases max_choice x a with hc | hc
        · exact List.mem_cons.mpr (Or.inl (hm.trans hc))
        · exact List.mem_cons.mpr (Or.inr (List.mem_cons.mpr (Or.inl (hm.trans hc))))
      · exact List.mem_cons.mpr (Or.inr (List.mem_cons.mpr (Or.inr hm)))
    · intro y hy
      rcases List.mem_cons.mp hy with rfl | hy'
      · exact (le_max_left _ _).trans (hle _ (List.mem_cons_self _ _))
      rcases List.mem_cons.mp hy' with rfl | hy''
      · exact (le_max_right _ _).trans (hle _ (List.mem_cons_self _ _))
      · exact hle y (List.mem_cons.mpr (Or.inr hy''))

/-- Rounding to two decimals is the identity on integers (in particular on
the `count` statistic). -/
theorem round2_natCast (n : ℕ) : round2 (n : ℚ) = (n : ℚ) := by
  rw [round2, roundHalfEven]
  have hcast : ((n : ℚ) * 100) = (((n * 100 : ℕ) : ℤ) : ℚ) := by push_cast; ring
  rw [hcast, Int.floor_intCast]
  rw [if_pos (by norm_num)]
  push_cast
  ring

/-- C4 counterexample: the numeric summary of `analyze_data` aggregates six
statistics — `mode` is not among them, refuting the claimed seven-statistic
contract with a first-occurrence tie-break mode. -/
theorem C4_counterexample :
    (analyze_regular_summary [Cell.num 10, Cell.num 20, Cell.num 20]).map Prod.fst =
      ["count", "mean", "median", "std", "min", "max"] ∧
    "mode" ∉ (analyze_regular_summary [Cell.num 10, Cell.num 20, Cell.num 20]).map Prod.fst ∧
    (analyze_regular_summary [Cell.num 10, Cell.num 20, Cell.num 20]).length = 6 :=
  ⟨rfl, by decide, rfl⟩

/-- C4 (amended): on a numeric column with at least one non-missing value the
summary returns exactly the six statistics `count, mean, median, std, min,
max` (`mode` is not computed): `count` is the number of non-missing values,
`mean` the rounded sum-over-count, and `min`/`max` round an actual element
that bounds every non-missing value. -/
theorem C4_regular_summary (vs : List Cell) (h : vs.filterMap cellNum? ≠ []) :
    ((analyze_regular_summary vs).map Prod.fst = regular_agg_funcs) ∧
    "mode" ∉ (analyze_regular_summary vs).map Prod.fst ∧
    (analyze_regular_summary vs).lookup "count" =
      some (.val ((vs.filterMap cellNum?).length : ℚ)) ∧
    (analyze_regular_summary vs).lookup "mean" =
      some (.val (round2
        ((vs.filterMap cellNum?).sum / ((vs.filterMap cellNum?).length : ℚ)))) ∧
    (∃ m : ℚ, (analyze_regular_summary vs).lookup "min" = some (.val (round2 m)) ∧
      m ∈ vs.filterMap cellNum? ∧ ∀ x ∈ vs.filterMap cellNum?, m ≤ x) ∧
    (∃ M : ℚ, (analyze_regular_summary vs).lookup "max" = some (.val (round2 M)) ∧
      M ∈ vs.filterMap cellNum? ∧ ∀ x ∈ vs.filterMap cellNum?, x ≤ M) := by
  have hlen : (vs.filterMap cellNum?).length ≠ 0 := by
    intro hzero
    exact h (List.length_eq_zero.mp hzero)
  refine ⟨rfl, ?_, ?_, ?_, ?_, ?_⟩
  · have hnames : (analyze_regular_summary vs).map Prod.fst = regular_agg_funcs := rfl
    rw [hnames]
    decide
  · simp only [analyze_regular_summary, List.lookup, round2_natCast]
    rfl
  · simp only [analyze_regular_summary, List.lookup, listMeanQ]
    rw [if_neg hlen]
    rfl
  · cases hx : vs.filterMap cellNum? with
    | nil => exact absurd hx h
    | cons a t =>
      refine ⟨listMinQ (a :: t), ?_, ?_, ?_⟩
      · simp only [analyze_regular_summary, List.lookup, hx]
        rw [if_neg (by simp)]
        rfl
      · exact (foldl_min_spec a t).1
      · exact (foldl_min_spec a t).2
  · cases hx : vs.filterMap cellNum? with
    | nil => exact absurd hx h
    | cons a t =>
      refine ⟨listMaxQ (a :: t), ?_, ?_, ?_⟩
      · simp only [analyze_regular_summary, List.lookup, hx]
        rw [if_neg (by simp)]
        rfl
      · exact (foldl_max_spec a t).1
      · exact fun x hxm => (foldl_max_spec a t).2 x hxm

/-- Witness for C4 at a concrete two-value column. -/
theorem C4_regular_summary_witness :
    (analyze_regular_summary [Cell.num 10, Cell.num 20]).map Prod.fst =
      regular_agg_funcs :=
  (C4_regular_summary [Cell.num 10, Cell.num 20] (by decide)).1

/-- C9: each recommendation category is emitted exactly when its prerequisite
bucket is non-empty after the meaningfulness filtering ("Correlations"
requires at least 2 meaningful numeric columns, "Geographic Maps" at least
one latitude and one longitude column, "Financial Analysis" at least one
monetary column), and the emitted categories always appear in the fixed
order geography, time, key metrics, correlations, category analysis,
financial. -/
theorem C9_recommendation_selector (cols : List Column) :
    ("Geographic Maps" ∈ create_smart_viz_options cols ↔
      bucket cols .geoLat ≠ [] ∧ bucket cols .geoLon ≠ []) ∧
    ("Time Series" ∈ create_smart_viz_options cols ↔ bucket cols .datetime ≠ []) ∧
    ("Key Metrics" ∈ create_smart_viz_options cols ↔ meaningful_numerics cols ≠ []) ∧
    ("Correlations" ∈ create_smart_viz_options cols ↔
      2 ≤ (meaningful_numerics cols).length) ∧
    ("Category Analysis" ∈ create_smart_viz_options cols ↔
      meaningful_categoricals cols ≠ []) ∧
    ("Financial Analysis" ∈ create_smart_viz_options cols ↔
      bucket cols .monetary ≠ []) ∧
    (create_smart_viz_options cols).Sublist
      ["Geographic Maps", "Time Series", "Key Metrics", "Correlations",
       "Category Analysis", "Financial Analysis"] := by
  have hdef : create_smart_viz_options cols =
      (if bucket cols .geoLat ≠ [] ∧ bucket cols .geoLon ≠ []
        then ["Geographic Maps"] else []) ++
      (if bucket cols .datetime ≠ [] then ["Time Series"] else []) ++
      (if meaningful_numerics cols ≠ [] then
        "Key Metrics" ::
          (if 2 ≤ (meaningful_numerics cols).length then ["Correlations"] else [])
      else []) ++
      (if meaningful_categoricals cols ≠ [] then ["Category Analysis"] else []) ++
      (if bucket cols .monetary ≠ [] then ["Financial Analysis"] else []) := rfl
  rw [hdef]
  have hcorr_sub : 2 ≤ (meaningful_numerics cols).length → meaningful_numerics cols ≠ [] := by
    intro h2 hnil
    rw [hnil] at h2
    simp at h2
  by_cases h1 : bucket cols .geoLat ≠ [] ∧ bucket cols .geoLon ≠ [] <;>
  by_cases h2 : bucket cols .datetime ≠ [] <;>
  by_cases h3 : meaningful_numerics cols ≠ [] <;>
  by_cases h4 : 2 ≤ (meaningful_numerics cols).length <;>
  by_cases h5 : meaningful_categoricals cols ≠ [] <;>
  by_cases h6 : bucket cols .monetary ≠ [] <;>
  first
  | exact absurd (hcorr_sub h4) h3
  | (simp [h1, h2, h3, h4, h5, h6] <;> decide)

end AIChart
